import Mathlib

/-!
Shallow embedding of src/bot/tracker.py (stock-trends-bot).

Price series are modelled as lists of observations carrying the calendar
year of their date index and an optional close price, where a missing
close (`none`) plays the role of pandas NaN; `dropna` removes them.
All arithmetic is over `ℚ`.  Fallible computations return `Option ℚ`
with `none` as the NaN sentinel, mirroring the guarded expressions in
`main` (tracker.py lines 498-512).  The client-side JavaScript embedded
in `render_html` is modelled as pure state transitions on a list of
displayed rows.
-/

namespace StockTrends

/-- Observation of a raw price series: calendar year of the date index and
an optional close (NaN is `none`). -/
structure Obs where
  year : Int
  close : Option ℚ
deriving DecidableEq

/-- Cleaned observation, after dropping NaN closes. -/
structure CObs where
  year : Int
  close : ℚ
deriving DecidableEq

/-- Model of pandas `Series.dropna()`: keep only observations with a close. -/
def dropna (s : List Obs) : List CObs :=
  s.filterMap (fun o => o.close.map (fun c => ⟨o.year, c⟩))

/-- Config from tracker.py: LOOKBACKS month entry (trading days). -/
def LOOKBACKS_month : ℕ := 21

/-- Config from tracker.py: RANK_HORIZON. -/
def RANK_HORIZON : String := "month"

/-- Config from tracker.py: TOP_N. -/
def TOP_N : ℕ := 10

/-- Watchlist from tracker.py (MIKE_TICKERS). -/
def MIKE_TICKERS : List String :=
  ["VOO","VOOG","VUG","VDIGX","QQQM","AAPL","NVDA","IVV","IWF","SE",
   "FBTC","VV","FXAIZ","AMZN","CLX","CRM","GBTC","ALRM"]

/-- Function price_last (tracker.py 82-86): last cleaned close, NaN if empty. -/
def price_last (s : List Obs) : Option ℚ :=
  ((dropna s).getLast?).map CObs.close

/-- Function prev_close (tracker.py 89-93): second-to-last cleaned close,
NaN when fewer than 2 cleaned observations exist. -/
def prev_close (s : List Obs) : Option ℚ :=
  let c := dropna s
  if c.length < 2 then none
  else (c.get? (c.length - 2)).map CObs.close

/-- Function month_base (tracker.py 96-100), with the month lookback
K = LOOKBACKS["month"] made a parameter: NaN when cleaned length ≤ K,
else the element at iloc[-(K+1)]. -/
def month_base (K : ℕ) (s : List Obs) : Option ℚ :=
  let c := dropna s
  if c.length ≤ K then none
  else (c.get? (c.length - (K + 1))).map CObs.close

/-- Function ytd_base (tracker.py 103-111): NaN when the cleaned series is
empty; otherwise the first cleaned observation whose year equals the year
of the last observation (NaN if that filter is empty). -/
def ytd_base (s : List Obs) : Option ℚ :=
  let c := dropna s
  match c.getLast? with
  | none => none
  | some lastO =>
      ((c.filter (fun o => o.year == lastO.year)).head?).map CObs.close

/-- Guarded return expression of main (tracker.py 503-505):
last/base - 1 when both operands are non-NaN and the baseline is nonzero,
NaN otherwise. -/
def retOpt (last base : Option ℚ) : Option ℚ :=
  match last, base with
  | some l, some b => if b ≠ 0 then some (l / b - 1) else none
  | _, _ => none

/-- Guarded day_abs expression of main (tracker.py 506): last - prev when
both are non-NaN, NaN otherwise. -/
def subOpt (last prev : Option ℚ) : Option ℚ :=
  match last, prev with
  | some l, some p => some (l - p)
  | _, _ => none

/-- Computed metrics row built by main (tracker.py 508-512). -/
structure Row where
  Ticker : String
  Price : Option ℚ
  PrevClose : Option ℚ
  MonthBase : Option ℚ
  YtdBase : Option ℚ
  Day : Option ℚ
  DayAbs : Option ℚ
  Month : Option ℚ
  YTD : Option ℚ
deriving DecidableEq

/-- Per-symbol row construction from main (tracker.py 498-512). -/
def mkRow (t : String) (s : List Obs) : Row :=
  let last_price := price_last s
  let prev := prev_close s
  let mbase := month_base LOOKBACKS_month s
  let ybase := ytd_base s
  { Ticker := t
    Price := last_price
    PrevClose := prev
    MonthBase := mbase
    YtdBase := ybase
    Day := retOpt last_price prev
    DayAbs := subOpt last_price prev
    Month := retOpt last_price mbase
    YTD := retOpt last_price ybase }

/-- First-occurrence deduplication, the model of Python
list(dict.fromkeys(xs)) used at tracker.py 486 and 489; the accumulator
holds symbols already emitted. -/
def dedupFirstAux : List String → List String → List String
  | _, [] => []
  | seen, x :: xs =>
      if x ∈ seen then dedupFirstAux seen xs
      else x :: dedupFirstAux (x :: seen) xs

/-- Model of list(dict.fromkeys(l)). -/
def dedupFirst (l : List String) : List String := dedupFirstAux [] l

/-- Combined universe (tracker.py 486): stocks ++ etfs, first occurrence kept. -/
def universeSyms (stocks etfs : List String) : List String :=
  dedupFirst (stocks ++ etfs)

/-- All fetched symbols (tracker.py 489): universe ++ MIKE_TICKERS, deduplicated. -/
def allSymbols (stocks etfs : List String) : List String :=
  dedupFirst (universeSyms stocks etfs ++ MIKE_TICKERS)

/-- Body of the row construction loop of main (tracker.py 495-512): the
row for one symbol, or nothing when the symbol has no history or its
cleaned history is empty. -/
def rowFor (histories : String → Option (List Obs)) (t : String) : Option Row :=
  match histories t with
  | none => none
  | some s => if (dropna s).length = 0 then none else some (mkRow t s)

/-- Row construction loop of main (tracker.py 493-513): one row per symbol
that has a history with at least one non-NaN close; others are skipped. -/
def buildRows (histories : String → Option (List Obs)) (symbols : List String) :
    List Row :=
  symbols.filterMap (rowFor histories)

/-- Ranking column selection (tracker.py 520): the dictionary lookup with
default "Month", applied to the lowered RANK_HORIZON string. -/
def rankVal (h : String) (r : Row) : Option ℚ :=
  if h = "day" then r.Day
  else if h = "month" then r.Month
  else if h = "ytd" then r.YTD
  else r.Month

/-- Descending comparison used to model sort_values(ascending=False) over
the NaN-filtered rank column (tracker.py 521): a is placed before b when
its rank value is at least that of b. -/
def rankLE (h : String) (a b : Row) : Prop :=
  (rankVal h b).getD 0 ≤ (rankVal h a).getD 0

instance (h : String) : DecidableRel (rankLE h) := fun a b =>
  inferInstanceAs (Decidable ((rankVal h b).getD 0 ≤ (rankVal h a).getD 0))

instance (h : String) : IsTotal Row (rankLE h) :=
  ⟨fun a b => le_total ((rankVal h b).getD 0) ((rankVal h a).getD 0)⟩

instance (h : String) : IsTrans Row (rankLE h) :=
  ⟨fun _ _ _ hab hbc => le_trans hbc hab⟩

/-- Leaderboard construction (tracker.py 521): drop rows whose rank-column
value is NaN, sort descending by that value, keep the first N. -/
def leaderboard (h : String) (N : ℕ) (rows : List Row) : List Row :=
  (List.insertionSort (rankLE h) (rows.filter (fun r => (rankVal h r).isSome))).take N

/-- Ranked leaderboard entries: the template numbers rows with the 1-based
loop.index (tracker.py 224). -/
def leaderboardRanked (h : String) (N : ℕ) (rows : List Row) : List (ℕ × Row) :=
  List.enumFrom 1 (leaderboard h N rows)

/-- Lookup in the order_map built at tracker.py 524: the position of a
symbol in a key list (first occurrence). -/
def orderIdx : List String → String → ℕ
  | [], _ => 0
  | k :: ks, t => if t = k then 0 else orderIdx ks t + 1

/-- Watchlist order comparison (tracker.py 524-527): rows are ordered by the
position of their ticker in MIKE_TICKERS (the order_map). -/
def mikeOrderLE (a b : Row) : Prop :=
  orderIdx MIKE_TICKERS a.Ticker ≤ orderIdx MIKE_TICKERS b.Ticker

instance : DecidableRel mikeOrderLE := fun _ _ =>
  inferInstanceAs (Decidable (_ ≤ _))

instance : IsTotal Row mikeOrderLE := ⟨fun _ _ => le_total _ _⟩

instance : IsTrans Row mikeOrderLE :=
  ⟨fun _ _ _ hab hbc => le_trans hab hbc⟩

/-- Watchlist projection (tracker.py 524-527): keep the rows whose ticker is
a key of order_map (i.e. appears in MIKE_TICKERS), then sort by the mapped
order index. -/
def mikeRows (rows : List Row) : List Row :=
  List.insertionSort mikeOrderLE
    (rows.filter (fun r => decide (r.Ticker ∈ MIKE_TICKERS)))

/-! Live quote recompute engine: the JavaScript embedded in render_html. -/

/-- QuoteSnapshot fields read by the JS loop; absent fields are `none`. -/
structure Quote where
  symbol : String
  regularMarketPrice : Option ℚ
  price : Option ℚ
  regularMarketPreviousClose : Option ℚ
  regularMarketChange : Option ℚ
  regularMarketChangePercent : Option ℚ
deriving DecidableEq

/-- Displayed row state: the frozen data attributes (data-prev, data-mbase,
data-ybase of tracker.py 223) plus the value texts and gain/loss markers.
Value texts are modelled semantically as the number shown (percent cells
hold the percent number, i.e. 100 times the fraction). -/
structure LiveRow where
  symbol : String
  prevAttr : Option ℚ
  mbaseAttr : Option ℚ
  ybaseAttr : Option ℚ
  priceDisp : Option ℚ
  dayAbsDisp : Option ℚ
  dayAbsGain : Bool
  dayPctDisp : Option ℚ
  dayPctGain : Bool
  monthDisp : Option ℚ
  monthGain : Bool
  ytdDisp : Option ℚ
  ytdGain : Bool
deriving DecidableEq

/-- Quote price resolution (tracker.py 319): regularMarketPrice ?? price ?? NaN. -/
def quotePrice (q : Quote) : Option ℚ :=
  match q.regularMarketPrice with
  | some p => some p
  | none => q.price

/-- Effective previous close (tracker.py 316, 321): the data-prev attribute,
falling back to the quote regularMarketPreviousClose when the attribute is NaN. -/
def effPrev (r : LiveRow) (q : Quote) : Option ℚ :=
  match r.prevAttr with
  | some p => some p
  | none => q.regularMarketPreviousClose

/-- Day recomputation (tracker.py 330-337): when the effective previous
close exists, is nonzero and a price exists, the day $ and % pair is
computed from them; otherwise it is absent and the quote change fields
take over. -/
def computedDay (prev price : Option ℚ) : Option (ℚ × ℚ) :=
  match prev, price with
  | some pv, some pr =>
      if pv ≠ 0 then some (pr - pv, (pr / pv - 1) * 100) else none
  | _, _ => none

/-- DOM write of the price cell (tracker.py 324-327). -/
def updPrice (price : Option ℚ) (r : LiveRow) : LiveRow :=
  match price with
  | some p => { r with priceDisp := some p }
  | none => r

/-- DOM write of the day $ cell (tracker.py 340-344). -/
def updDayAbs (v : Option ℚ) (r : LiveRow) : LiveRow :=
  match v with
  | some a => { r with dayAbsDisp := some a, dayAbsGain := decide (0 ≤ a) }
  | none => r

/-- DOM write of the day % cell (tracker.py 345-349). -/
def updDayPct (v : Option ℚ) (r : LiveRow) : LiveRow :=
  match v with
  | some a => { r with dayPctDisp := some a, dayPctGain := decide (0 ≤ a) }
  | none => r

/-- DOM write of the month % cell (tracker.py 351-358): guarded by the
stored month baseline being present and nonzero and a price existing. -/
def updMonth (price : Option ℚ) (r : LiveRow) : LiveRow :=
  match r.mbaseAttr, price with
  | some mb, some pr =>
      if mb ≠ 0 then
        { r with monthDisp := some ((pr / mb - 1) * 100)
                 monthGain := decide (0 ≤ (pr / mb - 1) * 100) }
      else r
  | _, _ => r

/-- DOM write of the YTD % cell (tracker.py 360-367). -/
def updYtd (price : Option ℚ) (r : LiveRow) : LiveRow :=
  match r.ybaseAttr, price with
  | some yb, some pr =>
      if yb ≠ 0 then
        { r with ytdDisp := some ((pr / yb - 1) * 100)
                 ytdGain := decide (0 ≤ (pr / yb - 1) * 100) }
      else r
  | _, _ => r

/-- Body of recomputeAndRender for the matched row (tracker.py 311-368):
update the price text, the day $ and % cells (recomputed from the stored
previous close when available and nonzero, otherwise taken from the quote
change fields), and the month/YTD % cells recomputed from the stored
baselines; cells whose guard fails keep their previous content. -/
def updateRow (q : Quote) (r : LiveRow) : LiveRow :=
  let price := quotePrice q
  let cd := computedDay (effPrev r q) price
  let dayAbs : Option ℚ :=
    match cd with
    | some d => some d.1
    | none => q.regularMarketChange
  let dayPct : Option ℚ :=
    match cd with
    | some d => some d.2
    | none => q.regularMarketChangePercent
  updYtd price (updMonth price (updDayPct dayPct (updDayAbs dayAbs (updPrice price r))))

/-- Function recomputeAndRender (tracker.py 311-312): querySelector and
getElementById resolve to the first row whose data-symbol matches, so the
update is applied to the first matching row only; with no match the
document is unchanged. -/
def recomputeAndRender (sym : String) (q : Quote) : List LiveRow → List LiveRow
  | [] => []
  | r :: rs =>
      if r.symbol = sym then updateRow q r :: rs
      else r :: recomputeAndRender sym q rs

/-- Published row handed from build time to the live engine (template rows,
tracker.py 223-235 and 530-548): the three baselines become data
attributes; displayed percent cells show the build fraction times 100
(fmt_pct renders 0.05 as +5.00%), and gain/loss classes come from the
_val fields, which are 0.0 when the metric is NaN. -/
def publishRow (r : Row) : LiveRow :=
  { symbol := r.Ticker
    prevAttr := r.PrevClose
    mbaseAttr := r.MonthBase
    ybaseAttr := r.YtdBase
    priceDisp := r.Price
    dayAbsDisp := r.DayAbs
    dayAbsGain := decide (0 ≤ r.DayAbs.getD 0)
    dayPctDisp := r.Day.map (fun x => x * 100)
    dayPctGain := decide (0 ≤ r.Day.getD 0)
    monthDisp := r.Month.map (fun x => x * 100)
    monthGain := decide (0 ≤ r.Month.getD 0)
    ytdDisp := r.YTD.map (fun x => x * 100)
    ytdGain := decide (0 ≤ r.YTD.getD 0) }

/-- Batch size of the table refresh loop (tracker.py 445). -/
def BATCH_SIZE : ℕ := 40

/-- Batching of refreshTables (tracker.py 446-447): slices of at most
BATCH_SIZE symbols, in order. -/
def chunks40 : List String → List (List String)
  | [] => []
  | x :: xs =>
      ((x :: xs).take BATCH_SIZE) :: chunks40 ((x :: xs).drop BATCH_SIZE)
termination_by l => l.length
decreasing_by
  simp only [BATCH_SIZE, List.length_drop, List.length_cons]
  omega

/-- Processing of one batch (tracker.py 450-459): a failed fetch leaves the
page untouched (the catch only logs); a successful fetch applies
recomputeAndRender for each returned quote in order. -/
def processBatch (fetch : List String → Option (List Quote))
    (rows : List LiveRow) (group : List String) : List LiveRow :=
  match fetch group with
  | none => rows
  | some quotes =>
      quotes.foldl (fun rs it => recomputeAndRender it.symbol it rs) rows

/-- Function refreshTables (tracker.py 441-462): fold the batch processor
over all batches of the displayed symbols. -/
def refreshTables (fetch : List String → Option (List Quote))
    (syms : List String) (rows : List LiveRow) : List LiveRow :=
  (chunks40 syms).foldl (processBatch fetch) rows

/-! Concrete inputs used by scenario parts and witnesses. -/

/-- Scenario series of the spec: closes [100, 102, 99, 105]. -/
def sC2 : List Obs :=
  [⟨2024, some 100⟩, ⟨2024, some 102⟩, ⟨2024, some 99⟩, ⟨2024, some 105⟩]

/-- Series whose previous close is exactly zero (a zero close is not NaN
and survives dropna). -/
def sZeroPrev : List Obs := [⟨2024, some 0⟩, ⟨2024, some 5⟩]

/-! Generic helper lemmas. -/

/-- Helper: the head of a filtered list is the first match. -/
theorem head?_filter {α : Type} (p : α → Bool) :
    ∀ l : List α, (l.filter p).head? = l.find? p := by
  intro l
  induction l with
  | nil => rfl
  | cons x xs ih =>
      by_cases h : p x <;> simp [List.filter_cons, List.find?_cons, h, ih]

/-! Claim C2: month baseline and month return. -/

/-- C2: for a cleaned history strictly longer than the month lookback K the
month baseline is the observation exactly K positions before the last one
(index K of the reversed cleaned series) and the month return is
last/baseline - 1; for length at most K both are undefined.  Scenario:
closes [100, 102, 99, 105] with K = 3 give baseline 100 and month return
+5% (= 1/20). -/
theorem month_base_correct :
    (∀ (K : ℕ) (s : List Obs),
      (K < (dropna s).length →
        month_base K s = ((dropna s).reverse.get? K).map CObs.close) ∧
      ((dropna s).length ≤ K →
        month_base K s = none ∧ retOpt (price_last s) (month_base K s) = none) ∧
      (∀ l b, price_last s = some l → month_base K s = some b → b ≠ 0 →
        retOpt (price_last s) (month_base K s) = some (l / b - 1)))
    ∧ month_base 3 sC2 = some 100
    ∧ retOpt (price_last sC2) (month_base 3 sC2) = some (1 / 20) := by
  have hlast : price_last sC2 = some 105 := rfl
  have hbase : month_base 3 sC2 = some 100 := rfl
  refine ⟨fun K s => ⟨?_, ?_, ?_⟩, hbase, by rw [hlast, hbase]; norm_num [retOpt]⟩
  · intro h
    simp only [month_base, if_neg (Nat.not_le.mpr h)]
    rw [List.get?_eq_getElem?, List.get?_eq_getElem?, List.getElem?_reverse h]
    congr 2
    omega
  · intro h
    have hb : month_base K s = none := by
      simp only [month_base, if_pos h]
    refine ⟨hb, ?_⟩
    rw [hb]
    rcases price_last s with _ | l <;> simp [retOpt]
  · intro l b hl hb hb0
    rw [hl, hb]
    simp [retOpt, hb0]

/-- Witness for C2 at the scenario input. -/
theorem month_base_correct_witness :
    (month_base 3 sC2 = ((dropna sC2).reverse.get? 3).map CObs.close)
    ∧ month_base 21 sC2 = none :=
  ⟨(month_base_correct.1 3 sC2).1
      (by have h : (dropna sC2).length = 4 := rfl; omega),
   ((month_base_correct.1 21 sC2).2.1
      (by have h : (dropna sC2).length = 4 := rfl; omega)).1⟩

/-! Claim C7: totality and NaN-guarding of the return computation. -/

/-- C7: the guarded return expression of main is total and never divides by
an undefined or zero baseline: a NaN or zero baseline (or a NaN last
price) yields the NaN sentinel, and any defined result arises from
defined operands with a nonzero baseline as last/baseline - 1; the same
holds for the per-row metrics built from it. -/
theorem retOpt_safe :
    (∀ last base : Option ℚ,
      (base = none → retOpt last base = none) ∧
      (base = some 0 → retOpt last base = none) ∧
      (last = none → retOpt last base = none) ∧
      (∀ v, retOpt last base = some v →
        ∃ l b, last = some l ∧ base = some b ∧ b ≠ 0 ∧ v = l / b - 1))
    ∧ (∀ (t : String) (s : List Obs),
      (prev_close s = none ∨ prev_close s = some 0 → (mkRow t s).Day = none) ∧
      (month_base LOOKBACKS_month s = none ∨ month_base LOOKBACKS_month s = some 0 →
        (mkRow t s).Month = none) ∧
      (ytd_base s = none ∨ ytd_base s = some 0 → (mkRow t s).YTD = none)) := by
  have base : ∀ last base : Option ℚ,
      (base = none → retOpt last base = none) ∧
      (base = some 0 → retOpt last base = none) ∧
      (last = none → retOpt last base = none) ∧
      (∀ v, retOpt last base = some v →
        ∃ l b, last = some l ∧ base = some b ∧ b ≠ 0 ∧ v = l / b - 1) := by
    intro last base
    refine ⟨?_, ?_, ?_, ?_⟩
    · rintro rfl; rcases last with _ | l <;> rfl
    · rintro rfl; rcases last with _ | l
      · rfl
      · simp [retOpt]
    · rintro rfl; rfl
    · intro v hv
      rcases last with _ | l
      · cases hv
      rcases base with _ | b
      · cases hv
      by_cases hb : b = 0
      · rw [show retOpt (some l) (some b) = none by simp [retOpt, hb]] at hv
        cases hv
      · refine ⟨l, b, rfl, rfl, hb, ?_⟩
        rw [show retOpt (some l) (some b) = some (l / b - 1) by simp [retOpt, hb]] at hv
        exact (Option.some_injective _ hv).symm
  refine ⟨base, fun t s => ⟨?_, ?_, ?_⟩⟩
  · rintro (h | h)
    · exact (base _ _).1 h
    · exact (base _ _).2.1 h
  · rintro (h | h)
    · exact (base _ _).1 h
    · exact (base _ _).2.1 h
  · rintro (h | h)
    · exact (base _ _).1 h
    · exact (base _ _).2.1 h

/-- Witness for C7 at concrete inputs: a zero baseline and a missing
baseline both yield the sentinel, and the zero-previous-close series gets
a NaN day return. -/
theorem retOpt_safe_witness :
    retOpt (some 5) (some 0) = none
    ∧ retOpt (some 5) none = none
    ∧ (mkRow "X" sZeroPrev).Day = none :=
  ⟨(retOpt_safe.1 (some 5) (some 0)).2.1 rfl,
   (retOpt_safe.1 (some 5) none).1 rfl,
   (retOpt_safe.2 "X" sZeroPrev).1 (Or.inr rfl)⟩

/-! Claim C3: day baseline, day deltas and their consistency. -/

/-- C3 counterexample: with closes [0, 5] the previous close is 0, so the
day absolute delta is defined (some 5) while the day percentage delta is
the NaN sentinel — the two are not defined under the same conditions. -/
theorem day_same_conditions_cex :
    (mkRow "X" sZeroPrev).DayAbs = some 5 ∧ (mkRow "X" sZeroPrev).Day = none ∧
    ¬((mkRow "X" sZeroPrev).DayAbs.isSome ↔ (mkRow "X" sZeroPrev).Day.isSome) := by
  have h1 : price_last sZeroPrev = some 5 := rfl
  have h2 : prev_close sZeroPrev = some 0 := rfl
  have habs : (mkRow "X" sZeroPrev).DayAbs = some 5 := by
    show subOpt (price_last sZeroPrev) (prev_close sZeroPrev) = some 5
    rw [h1, h2]; norm_num [subOpt]
  have hday : (mkRow "X" sZeroPrev).Day = none := by
    show retOpt (price_last sZeroPrev) (prev_close sZeroPrev) = none
    rw [h1, h2]; simp [retOpt]
  refine ⟨habs, hday, ?_⟩
  rw [habs, hday]
  simp

/-- C3 amended: the day baseline is the observation immediately preceding
the last one (undefined with fewer than 2 cleaned observations); the day
absolute delta is defined exactly when last and previous close are
defined, while the day percentage delta additionally requires a nonzero
previous close; whenever both are defined, dayAbs = prevClose * dayPct. -/
theorem day_metrics_correct :
    ∀ (t : String) (s : List Obs),
      (2 ≤ (dropna s).length →
        prev_close s = ((dropna s).reverse.get? 1).map CObs.close) ∧
      ((dropna s).length < 2 → prev_close s = none) ∧
      ((mkRow t s).DayAbs.isSome ↔ (price_last s).isSome ∧ (prev_close s).isSome) ∧
      ((mkRow t s).Day.isSome ↔
        ((price_last s).isSome ∧ (prev_close s).isSome ∧ prev_close s ≠ some 0)) ∧
      (∀ a p pc, (mkRow t s).DayAbs = some a → (mkRow t s).Day = some p →
        prev_close s = some pc → a = pc * p) := by
  intro t s
  refine ⟨?_, ?_, ?_, ?_, ?_⟩
  · intro h
    simp only [prev_close,
      if_neg (by omega : ¬(dropna s).length < 2)]
    rw [List.get?_eq_getElem?, List.get?_eq_getElem?,
      List.getElem?_reverse (by omega : 1 < (dropna s).length),
      (by omega : (dropna s).length - 2 = (dropna s).length - 1 - 1)]
  · intro h
    simp only [prev_close, if_pos h]
  · show (subOpt (price_last s) (prev_close s)).isSome ↔ _
    rcases price_last s with _ | l <;> rcases prev_close s with _ | pc <;>
      simp [subOpt]
  · show (retOpt (price_last s) (prev_close s)).isSome ↔ _
    rcases price_last s with _ | l <;> rcases prev_close s with _ | pc
    · simp [retOpt]
    · simp [retOpt]
    · simp [retOpt]
    · by_cases hpc : pc = 0 <;> simp [retOpt, hpc]
  · intro a p pc ha hp hpc
    have ha2 : subOpt (price_last s) (prev_close s) = some a := ha
    have hp2 : retOpt (price_last s) (prev_close s) = some p := hp
    rcases hl : price_last s with _ | l
    · rw [hl, hpc] at ha2; cases ha2
    rw [hl, hpc] at ha2 hp2
    by_cases h0 : pc = 0
    · simp [retOpt, h0] at hp2
    have hav : a = l - pc := by
      simpa [subOpt] using ha2.symm
    have hpv : p = l / pc - 1 := by
      rw [show retOpt (some l) (some pc) = some (l / pc - 1) by
        simp [retOpt, h0]] at hp2
      exact (Option.some_injective _ hp2).symm
    rw [hav, hpv]
    field_simp

/-- Witness for C3 (amended) at a concrete series. -/
theorem day_metrics_correct_witness :
    prev_close sC2 = ((dropna sC2).reverse.get? 1).map CObs.close
    ∧ ((5 : ℚ) - 2 = 2 * ((5 : ℚ) / 2 - 1) → True) :=
  ⟨(day_metrics_correct "A" sC2).1
      (by have h : (dropna sC2).length = 4 := rfl; omega),
   fun _ => trivial⟩

/-! Claim C4: year-to-date baseline. -/

/-- C4: for a non-empty cleaned series the year-to-date baseline is defined
and equals the earliest (first-found) observation whose calendar year is
the year of the last observation; it is the NaN sentinel for an empty
cleaned series.  Scenario: an instrument with a single nonzero
observation has undefined day and month returns while its year-to-date
return is 0, the baseline being the last point itself. -/
theorem ytd_base_correct :
    (∀ s : List Obs, dropna s ≠ [] →
      ∃ lastO o, (dropna s).getLast? = some lastO ∧
        (dropna s).find? (fun x => x.year == lastO.year) = some o ∧
        ytd_base s = some o.close) ∧
    (∀ s : List Obs, dropna s = [] → ytd_base s = none) ∧
    (∀ (t : String) (y : Int) (p : ℚ), p ≠ 0 →
      (mkRow t [⟨y, some p⟩]).Day = none ∧
      (mkRow t [⟨y, some p⟩]).Month = none ∧
      (mkRow t [⟨y, some p⟩]).YTD = some 0) := by
  refine ⟨?_, ?_, ?_⟩
  · intro s hne
    obtain ⟨lastO, hlast⟩ :=
      Option.isSome_iff_exists.mp (List.getLast?_isSome.mpr hne)
    have hmem : lastO ∈ dropna s := by
      obtain ⟨ys, hys⟩ := List.getLast?_eq_some_iff.mp hlast
      rw [hys]; simp
    have hfind : (dropna s).find? (fun x => x.year == lastO.year) ≠ none := by
      intro hnone
      have hniff := List.find?_eq_none.mp hnone lastO hmem
      exact hniff (beq_self_eq_true lastO.year)
    obtain ⟨o, ho⟩ := Option.ne_none_iff_exists.mp hfind
    refine ⟨lastO, o, hlast, ho.symm, ?_⟩
    simp only [ytd_base, hlast]
    rw [head?_filter, ← ho]
    rfl
  · intro s h
    simp [ytd_base, h]
  · intro t y p hp
    have hday : (mkRow t [⟨y, some p⟩]).Day = none := rfl
    have hmonth : (mkRow t [⟨y, some p⟩]).Month = none := rfl
    refine ⟨hday, hmonth, ?_⟩
    show retOpt (price_last _) (ytd_base _) = some 0
    have h1 : price_last [⟨y, some p⟩] = some p := rfl
    have h2 : ytd_base [⟨y, some p⟩] = some p := by
      simp [ytd_base, dropna, List.filter_cons]
    rw [h1, h2]
    simp [retOpt, hp, div_self hp]

/-- Witness for C4: the scenario instantiated at a concrete single-point
series, plus the non-empty branch at the 4-point series. -/
theorem ytd_base_correct_witness :
    (∃ lastO o, (dropna sC2).getLast? = some lastO ∧
        (dropna sC2).find? (fun x => x.year == lastO.year) = some o ∧
        ytd_base sC2 = some o.close)
    ∧ (mkRow "A" [⟨2024, some 100⟩]).YTD = some 0 :=
  ⟨ytd_base_correct.1 sC2
      (by simp [show dropna sC2 =
        [⟨2024, 100⟩, ⟨2024, 102⟩, ⟨2024, 99⟩, ⟨2024, 105⟩] from rfl]),
   (ytd_base_correct.2.2 "A" 2024 100 (by norm_num)).2.2⟩

/-! Live engine helper lemmas: the DOM writers never touch the frozen
symbol and baseline attributes, and each writer touches only its own cell. -/

/-- Frozen part of a displayed row: symbol and the three data attributes. -/
def frozen (r : LiveRow) : String × Option ℚ × Option ℚ × Option ℚ :=
  (r.symbol, r.prevAttr, r.mbaseAttr, r.ybaseAttr)

theorem frozen_updPrice (p : Option ℚ) (r : LiveRow) :
    frozen (updPrice p r) = frozen r := by
  cases p <;> rfl

theorem frozen_updDayAbs (v : Option ℚ) (r : LiveRow) :
    frozen (updDayAbs v r) = frozen r := by
  cases v <;> rfl

theorem frozen_updDayPct (v : Option ℚ) (r : LiveRow) :
    frozen (updDayPct v r) = frozen r := by
  cases v <;> rfl

theorem frozen_updMonth (p : Option ℚ) (r : LiveRow) :
    frozen (updMonth p r) = frozen r := by
  unfold updMonth
  split
  · split <;> rfl
  · rfl

theorem frozen_updYtd (p : Option ℚ) (r : LiveRow) :
    frozen (updYtd p r) = frozen r := by
  unfold updYtd
  split
  · split <;> rfl
  · rfl

theorem frozen_updateRow (q : Quote) (r : LiveRow) :
    frozen (updateRow q r) = frozen r := by
  unfold updateRow
  exact (frozen_updYtd _ _).trans ((frozen_updMonth _ _).trans
    ((frozen_updDayPct _ _).trans ((frozen_updDayAbs _ _).trans
      (frozen_updPrice _ _))))

theorem symbol_of_frozen {a b : LiveRow} (h : frozen a = frozen b) :
    a.symbol = b.symbol :=
  congrArg Prod.fst h

theorem mbase_of_frozen {a b : LiveRow} (h : frozen a = frozen b) :
    a.mbaseAttr = b.mbaseAttr :=
  congrArg (fun x => x.2.2.1) h

theorem ybase_of_frozen {a b : LiveRow} (h : frozen a = frozen b) :
    a.ybaseAttr = b.ybaseAttr :=
  congrArg (fun x => x.2.2.2) h

theorem updMonth_dayPctDisp (p : Option ℚ) (r : LiveRow) :
    (updMonth p r).dayPctDisp = r.dayPctDisp := by
  unfold updMonth
  split
  · split <;> rfl
  · rfl

theorem updYtd_dayPctDisp (p : Option ℚ) (r : LiveRow) :
    (updYtd p r).dayPctDisp = r.dayPctDisp := by
  unfold updYtd
  split
  · split <;> rfl
  · rfl

theorem updYtd_monthDisp (p : Option ℚ) (r : LiveRow) :
    (updYtd p r).monthDisp = r.monthDisp := by
  unfold updYtd
  split
  · split <;> rfl
  · rfl

/-- Month cell write when the guard holds. -/
theorem updMonth_monthDisp_of (r : LiveRow) {mb l : ℚ}
    (hm : r.mbaseAttr = some mb) (hmb : mb ≠ 0) :
    (updMonth (some l) r).monthDisp = some ((l / mb - 1) * 100) := by
  have h : updMonth (some l) r
      = if mb ≠ 0 then
          { r with monthDisp := some ((l / mb - 1) * 100)
                   monthGain := decide (0 ≤ (l / mb - 1) * 100) }
        else r := by
    unfold updMonth
    rw [hm]
  rw [h, if_pos hmb]

/-- YTD cell write when the guard holds. -/
theorem updYtd_ytdDisp_of (r : LiveRow) {yb l : ℚ}
    (hy : r.ybaseAttr = some yb) (hyb : yb ≠ 0) :
    (updYtd (some l) r).ytdDisp = some ((l / yb - 1) * 100) := by
  have h : updYtd (some l) r
      = if yb ≠ 0 then
          { r with ytdDisp := some ((l / yb - 1) * 100)
                   ytdGain := decide (0 ≤ (l / yb - 1) * 100) }
        else r := by
    unfold updYtd
    rw [hy]
  rw [h, if_pos hyb]

/-- Day percent cell after a full update with a defined nonzero stored
previous close and a defined quote price. -/
theorem updateRow_dayPctDisp_of (q : Quote) (r : LiveRow) {pc l : ℚ}
    (hprev : r.prevAttr = some pc) (hpc : pc ≠ 0)
    (hprice : quotePrice q = some l) :
    (updateRow q r).dayPctDisp = some ((l / pc - 1) * 100) := by
  have hEff : effPrev r q = some pc := by
    unfold effPrev; rw [hprev]
  have hcd : computedDay (effPrev r q) (some l)
      = some (l - pc, (l / pc - 1) * 100) := by
    rw [hEff]
    show (if pc ≠ 0 then some (l - pc, (l / pc - 1) * 100) else none)
        = some (l - pc, (l / pc - 1) * 100)
    rw [if_pos hpc]
  simp only [updateRow, hprice, hcd]
  rw [updYtd_dayPctDisp, updMonth_dayPctDisp]
  rfl

/-- Month percent cell after a full update with a defined nonzero stored
month baseline and a defined quote price. -/
theorem updateRow_monthDisp_of (q : Quote) (r : LiveRow) {mb l : ℚ}
    (hm : r.mbaseAttr = some mb) (hmb : mb ≠ 0)
    (hprice : quotePrice q = some l) :
    (updateRow q r).monthDisp = some ((l / mb - 1) * 100) := by
  unfold updateRow
  rw [hprice, updYtd_monthDisp]
  have hpres : (updDayPct
      (match computedDay (effPrev r q) (some l) with
       | some d => some d.2
       | none => q.regularMarketChangePercent)
      (updDayAbs
        (match computedDay (effPrev r q) (some l) with
         | some d => some d.1
         | none => q.regularMarketChange)
        (updPrice (some l) r))).mbaseAttr = some mb := by
    rw [mbase_of_frozen (frozen_updDayPct _ _),
      mbase_of_frozen (frozen_updDayAbs _ _),
      mbase_of_frozen (frozen_updPrice _ _), hm]
  rw [updMonth_monthDisp_of _ hpres hmb]

/-- YTD percent cell after a full update with a defined nonzero stored
YTD baseline and a defined quote price. -/
theorem updateRow_ytdDisp_of (q : Quote) (r : LiveRow) {yb l : ℚ}
    (hy : r.ybaseAttr = some yb) (hyb : yb ≠ 0)
    (hprice : quotePrice q = some l) :
    (updateRow q r).ytdDisp = some ((l / yb - 1) * 100) := by
  unfold updateRow
  rw [hprice]
  have hpres : (updMonth (some l) (updDayPct
      (match computedDay (effPrev r q) (some l) with
       | some d => some d.2
       | none => q.regularMarketChangePercent)
      (updDayAbs
        (match computedDay (effPrev r q) (some l) with
         | some d => some d.1
         | none => q.regularMarketChange)
        (updPrice (some l) r)))).ybaseAttr = some yb := by
    rw [ybase_of_frozen (frozen_updMonth _ _),
      ybase_of_frozen (frozen_updDayPct _ _),
      ybase_of_frozen (frozen_updDayAbs _ _),
      ybase_of_frozen (frozen_updPrice _ _), hy]
  rw [updYtd_ytdDisp_of _ hpres hyb]

/-! Claim C1: the live recompute refines the build-time formula. -/

/-- C1: for a published row with its frozen baselines, when the live quote
price equals the build-time last price, the client-side recomputed day,
month and year-to-date percentages equal 100 times the build-time
fractions — exactly, hence within the 1e-6 tolerance. -/
theorem live_recompute_refines_build :
    ∀ (t : String) (s : List Obs) (q : Quote),
      quotePrice q = price_last s →
      (∀ v, (mkRow t s).Day = some v →
        ∃ w, (updateRow q (publishRow (mkRow t s))).dayPctDisp = some w ∧
          |w - v * 100| ≤ 1 / 1000000) ∧
      (∀ v, (mkRow t s).Month = some v →
        ∃ w, (updateRow q (publishRow (mkRow t s))).monthDisp = some w ∧
          |w - v * 100| ≤ 1 / 1000000) ∧
      (∀ v, (mkRow t s).YTD = some v →
        ∃ w, (updateRow q (publishRow (mkRow t s))).ytdDisp = some w ∧
          |w - v * 100| ≤ 1 / 1000000) := by
  intro t s q hq
  have hpub_prev : (publishRow (mkRow t s)).prevAttr = prev_close s := rfl
  have hpub_mb : (publishRow (mkRow t s)).mbaseAttr = month_base LOOKBACKS_month s := rfl
  have hpub_yb : (publishRow (mkRow t s)).ybaseAttr = ytd_base s := rfl
  refine ⟨?_, ?_, ?_⟩
  · intro v hv
    have hv2 : retOpt (price_last s) (prev_close s) = some v := hv
    obtain ⟨l, pc, hl, hpc, hpc0, hval⟩ := (retOpt_safe.1 _ _).2.2.2 v hv2
    refine ⟨(l / pc - 1) * 100, ?_, ?_⟩
    · exact updateRow_dayPctDisp_of q _ (hpub_prev.trans hpc) hpc0
        (hq.trans hl)
    · rw [hval]
      simp
  · intro v hv
    have hv2 : retOpt (price_last s) (month_base LOOKBACKS_month s) = some v := hv
    obtain ⟨l, mb, hl, hmb, hmb0, hval⟩ := (retOpt_safe.1 _ _).2.2.2 v hv2
    refine ⟨(l / mb - 1) * 100, ?_, ?_⟩
    · exact updateRow_monthDisp_of q _ (hpub_mb.trans hmb) hmb0
        (hq.trans hl)
    · rw [hval]
      simp
  · intro v hv
    have hv2 : retOpt (price_last s) (ytd_base s) = some v := hv
    obtain ⟨l, yb, hl, hyb, hyb0, hval⟩ := (retOpt_safe.1 _ _).2.2.2 v hv2
    refine ⟨(l / yb - 1) * 100, ?_, ?_⟩
    · exact updateRow_ytdDisp_of q _ (hpub_yb.trans hyb) hyb0
        (hq.trans hl)
    · rw [hval]
      simp

/-- Quote used by witnesses: price equal to the build-time last close of
the single-point series. -/
def qOne : Quote := ⟨"A", some 100, none, none, none, none⟩

/-- Witness for C1 at the single-point series: the build YTD is 0 and the
live-recomputed YTD percent is 0 as well. -/
theorem live_recompute_refines_build_witness :
    ∃ w, (updateRow qOne (publishRow (mkRow "A" [⟨2024, some 100⟩]))).ytdDisp
        = some w ∧ |w - 0 * 100| ≤ 1 / 1000000 :=
  (live_recompute_refines_build "A" [⟨2024, some 100⟩] qOne rfl).2.2 0
    ((ytd_base_correct.2.2 "A" 2024 100 (by norm_num)).2.2)

/-! Claim C8: each live update is a frame-preserving write. -/

/-- Helper for C8: recomputeAndRender relates every input row to its output
row — the frozen part never changes, and rows whose symbol differs from
the updated one are untouched. -/
theorem recompute_forall₂ (sym : String) (q : Quote) :
    ∀ rows : List LiveRow,
      List.Forall₂ (fun r r2 => frozen r2 = frozen r ∧ (r.symbol ≠ sym → r2 = r))
        rows (recomputeAndRender sym q rows) := by
  intro rows
  induction rows with
  | nil => exact List.Forall₂.nil
  | cons r rs ih =>
      unfold recomputeAndRender
      by_cases h : r.symbol = sym
      · rw [if_pos h]
        exact List.Forall₂.cons
          ⟨frozen_updateRow q r, fun hns => absurd h hns⟩
          (List.forall₂_same.mpr (fun x _ => ⟨rfl, fun _ => rfl⟩))
      · rw [if_neg h]
        exact List.Forall₂.cons ⟨rfl, fun _ => rfl⟩ ih

/-- C8: a live update for one symbol leaves the symbol sequence of the
whole document (Top-N table followed by the watchlist table) unchanged —
so membership and order of both tables are frozen — and modifies at most
the displayed value text and gain/loss markers of the matching row: all
frozen fields survive, and every row with a different symbol is untouched. -/
theorem live_update_frame :
    ∀ (top mike : List LiveRow) (sym : String) (q : Quote),
      ((recomputeAndRender sym q (top ++ mike)).map LiveRow.symbol
        = top.map LiveRow.symbol ++ mike.map LiveRow.symbol) ∧
      List.Forall₂
        (fun r r2 => frozen r2 = frozen r ∧ (r.symbol ≠ sym → r2 = r))
        (top ++ mike) (recomputeAndRender sym q (top ++ mike)) := by
  intro top mike sym q
  have h := recompute_forall₂ sym q (top ++ mike)
  refine ⟨?_, h⟩
  have hmap : ∀ {l1 l2 : List LiveRow},
      List.Forall₂ (fun r r2 => frozen r2 = frozen r ∧ (r.symbol ≠ sym → r2 = r))
        l1 l2 → l2.map LiveRow.symbol = l1.map LiveRow.symbol := by
    intro l1 l2 hf
    induction hf with
    | nil => rfl
    | cons hr _ ih => simp [ih, symbol_of_frozen hr.1]
  rw [hmap h, List.map_append]

/-- Displayed rows used by the C8 witness. -/
def lrA : LiveRow :=
  ⟨"AAA", some 1, some 2, some 3, some 4, none, true, none, true, none, true, none, true⟩

/-- Second displayed row used by the C8 witness. -/
def lrB : LiveRow :=
  ⟨"BBB", some 5, some 6, some 7, some 8, none, true, none, true, none, true, none, true⟩

/-- Quote used by the C8 witness. -/
def qAAA : Quote := ⟨"AAA", some 7, none, none, none, none⟩

/-- Witness for C8 at a concrete two-row document. -/
theorem live_update_frame_witness :
    (recomputeAndRender "AAA" qAAA ([lrA] ++ [lrB])).map LiveRow.symbol
      = [lrA].map LiveRow.symbol ++ [lrB].map LiveRow.symbol :=
  (live_update_frame [lrA] [lrB] "AAA" qAAA).1

/-! Claim C9: batching and failure isolation of the table refresh loop. -/

/-- Helper: every batch produced by the slicing loop has at most
BATCH_SIZE symbols. -/
theorem chunks40_sizes :
    ∀ (l : List String), ∀ g ∈ chunks40 l, g.length ≤ BATCH_SIZE := by
  intro l
  induction l using chunks40.induct with
  | case1 =>
      intro g hg
      rw [chunks40] at hg
      cases hg
  | case2 x xs ih =>
      intro g hg
      rw [chunks40] at hg
      rcases List.mem_cons.mp hg with h | h
      · rw [h]; exact List.length_take_le _ _
      · exact ih g h

/-- Helper: the batches tile the displayed symbol list exactly. -/
theorem chunks40_flatten : ∀ l : List String, (chunks40 l).flatten = l := by
  intro l
  induction l using chunks40.induct with
  | case1 => rw [chunks40]; rfl
  | case2 x xs ih =>
      rw [chunks40]
      simp only [List.flatten_cons, ih]
      exact List.take_append_drop _ _

/-- C9: on a tick the displayed symbols are fetched in batches of at most
40 symbols which together cover every displayed symbol; a batch whose
fetch fails leaves the page state unchanged for that batch while the
remaining batches are still processed.  Since the batches are a function
of the (fixed) symbol list alone, the failed symbols are covered again on
the next tick. -/
theorem refresh_batching :
    ∀ syms : List String,
      (∀ g ∈ chunks40 syms, g.length ≤ BATCH_SIZE) ∧
      (chunks40 syms).flatten = syms ∧
      (∀ (fetch : List String → Option (List Quote)) (rows : List LiveRow)
        (g : List String), fetch g = none → processBatch fetch rows g = rows) ∧
      (∀ (fetch : List String → Option (List Quote)) (rows : List LiveRow)
        (pre post : List (List String)) (g : List String),
        chunks40 syms = pre ++ g :: post → fetch g = none →
        refreshTables fetch syms rows =
          post.foldl (processBatch fetch) (pre.foldl (processBatch fetch) rows)) := by
  intro syms
  have hpb : ∀ (fetch : List String → Option (List Quote)) (rows : List LiveRow)
      (g : List String), fetch g = none → processBatch fetch rows g = rows := by
    intro fetch rows g hg
    unfold processBatch
    rw [hg]
  refine ⟨chunks40_sizes syms, chunks40_flatten syms, hpb, ?_⟩
  intro fetch rows pre post g hch hg
  unfold refreshTables
  rw [hch, List.foldl_append, List.foldl_cons, hpb fetch _ g hg]

/-- Witness for C9: a failing fetch leaves a concrete one-row page
unchanged, and the batches of a concrete symbol list tile it. -/
theorem refresh_batching_witness :
    processBatch (fun _ => none) [lrA] ["AAA"] = [lrA]
    ∧ (chunks40 ["AAA", "BBB"]).flatten = ["AAA", "BBB"] :=
  ⟨(refresh_batching ["AAA"]).2.2.1 (fun _ => none) [lrA] ["AAA"] rfl,
   (refresh_batching ["AAA", "BBB"]).2.1⟩

/-! Claim C10: one computed row per distinct symbol. -/

/-- Helper: membership in the first-occurrence deduplication. -/
theorem mem_dedupFirstAux : ∀ (l seen : List String) (x : String),
    x ∈ dedupFirstAux seen l ↔ x ∈ l ∧ x ∉ seen := by
  intro l
  induction l with
  | nil =>
      intro seen x
      simp [dedupFirstAux]
  | cons y ys ih =>
      intro seen x
      unfold dedupFirstAux
      by_cases hy : y ∈ seen
      · rw [if_pos hy, ih]
        constructor
        · rintro ⟨hx, hns⟩
          exact ⟨List.mem_cons_of_mem _ hx, hns⟩
        · rintro ⟨hx, hns⟩
          rcases List.mem_cons.mp hx with rfl | hx2
          · exact absurd hy hns
          · exact ⟨hx2, hns⟩
      · rw [if_neg hy]
        constructor
        · intro hx
          rcases List.mem_cons.mp hx with rfl | hx2
          · exact ⟨List.mem_cons_self _ _, hy⟩
          · obtain ⟨h1, h2⟩ := (ih _ _).mp hx2
            exact ⟨List.mem_cons_of_mem _ h1,
              fun hc => h2 (List.mem_cons_of_mem _ hc)⟩
        · rintro ⟨hx, hns⟩
          rcases List.mem_cons.mp hx with rfl | hx2
          · exact List.mem_cons_self _ _
          · by_cases hxy : x = y
            · subst hxy; exact List.mem_cons_self _ _
            · refine List.mem_cons_of_mem _ ((ih _ _).mpr ⟨hx2, ?_⟩)
              intro hc
              rcases List.mem_cons.mp hc with h | h
              · exact hxy h
              · exact hns h

/-- Helper: the first-occurrence deduplication never repeats a symbol. -/
theorem nodup_dedupFirstAux :
    ∀ (l seen : List String), (dedupFirstAux seen l).Nodup := by
  intro l
  induction l with
  | nil =>
      intro seen
      unfold dedupFirstAux
      exact List.nodup_nil
  | cons y ys ih =>
      intro seen
      unfold dedupFirstAux
      by_cases hy : y ∈ seen
      · rw [if_pos hy]; exact ih _
      · rw [if_neg hy]
        refine List.nodup_cons.mpr ⟨?_, ih _⟩
        intro hc
        exact ((mem_dedupFirstAux _ _ _).mp hc).2 (List.mem_cons_self _ _)

theorem nodup_dedupFirst (l : List String) : (dedupFirst l).Nodup :=
  nodup_dedupFirstAux l []

theorem mem_dedupFirst (l : List String) (x : String) :
    x ∈ dedupFirst l ↔ x ∈ l := by
  rw [dedupFirst, mem_dedupFirstAux]
  simp

/-- Skip condition of the row-building loop (tracker.py 496-497): a symbol
contributes a row exactly when its fetched history has a non-NaN close. -/
def hasData (hist : String → Option (List Obs)) (t : String) : Bool :=
  match hist t with
  | none => false
  | some s => decide ((dropna s).length ≠ 0)

theorem hasData_iff (hist : String → Option (List Obs)) (t : String) :
    hasData hist t = true ↔ ∃ s, hist t = some s ∧ dropna s ≠ [] := by
  unfold hasData
  cases hh : hist t with
  | none => simp
  | some s => simp [List.length_eq_zero]

/-- Helper: the tickers of the built rows are exactly the input symbols
that have data, in input order. -/
theorem buildRows_map_ticker (hist : String → Option (List Obs)) :
    ∀ syms : List String,
      (buildRows hist syms).map Row.Ticker = syms.filter (hasData hist) := by
  intro syms
  induction syms with
  | nil => rfl
  | cons t ts ih =>
      unfold buildRows at ih ⊢
      rw [List.filter_cons]
      cases hh : hist t with
      | none =>
          have hft : rowFor hist t = none := by
            unfold rowFor
            rw [hh]
          rw [List.filterMap_cons_none hft]
          have hd : hasData hist t = false := by simp [hasData, hh]
          rw [hd, if_neg (by simp)]
          exact ih
      | some s =>
          by_cases hl : (dropna s).length = 0
          · have hft : rowFor hist t = none := by
              unfold rowFor
              rw [hh]
              show (if (dropna s).length = 0 then none
                else some (mkRow t s)) = none
              rw [if_pos hl]
            rw [List.filterMap_cons_none hft]
            have hd : hasData hist t = false := by simp [hasData, hh, hl]
            rw [hd, if_neg (by simp)]
            exact ih
          · have hft : rowFor hist t = some (mkRow t s) := by
              unfold rowFor
              rw [hh]
              show (if (dropna s).length = 0 then none
                else some (mkRow t s)) = some (mkRow t s)
              rw [if_neg hl]
            rw [List.filterMap_cons_some hft]
            have hd : hasData hist t = true := by simp [hasData, hh, hl]
            rw [hd, if_pos rfl]
            simp only [List.map_cons]
            rw [show (mkRow t s).Ticker = t from rfl, ih]

/-- C10: the combined symbol list is deduplicated first-occurrence before
fetching, so the computed row set has at most — and for symbols with data
exactly — one row per distinct symbol appearing in the stock file, the
ETF file or the built-in watchlist. -/
theorem build_unique_rows :
    ∀ (stocks etfs : List String) (hist : String → Option (List Obs)),
      ((buildRows hist (allSymbols stocks etfs)).map Row.Ticker).Nodup ∧
      (∀ t, t ∈ (buildRows hist (allSymbols stocks etfs)).map Row.Ticker ↔
        ((t ∈ stocks ++ etfs ∨ t ∈ MIKE_TICKERS) ∧
          ∃ s, hist t = some s ∧ dropna s ≠ [])) ∧
      (∀ t, ((buildRows hist (allSymbols stocks etfs)).map Row.Ticker).count t
        ≤ 1) := by
  intro stocks etfs hist
  have hmap := buildRows_map_ticker hist (allSymbols stocks etfs)
  have hnd : ((buildRows hist (allSymbols stocks etfs)).map Row.Ticker).Nodup := by
    rw [hmap]
    exact List.Nodup.filter _ (nodup_dedupFirst _)
  refine ⟨hnd, ?_, fun t => List.nodup_iff_count_le_one.mp hnd t⟩
  intro t
  have hmem : t ∈ allSymbols stocks etfs
      ↔ (t ∈ stocks ++ etfs ∨ t ∈ MIKE_TICKERS) := by
    unfold allSymbols universeSyms
    rw [mem_dedupFirst, List.mem_append, mem_dedupFirst]
  rw [hmap, List.mem_filter, hasData_iff, hmem]

/-- History provider for the C10 witness: only symbol A resolves. -/
def histW : String → Option (List Obs) :=
  fun t => if t = "A" then some [⟨2024, some 1⟩] else none

/-- Witness for C10: with A listed twice among the files, exactly one row
is produced for it. -/
theorem build_unique_rows_witness :
    ("A" ∈ (buildRows histW (allSymbols ["A", "B", "A"] ["B"])).map Row.Ticker)
    ∧ ((buildRows histW (allSymbols ["A", "B", "A"] ["B"])).map Row.Ticker).count "A" ≤ 1 :=
  ⟨((build_unique_rows ["A", "B", "A"] ["B"] histW).2.1 "A").mpr
      ⟨Or.inl (by simp), [⟨2024, some 1⟩], rfl, by simp [dropna]⟩,
   (build_unique_rows ["A", "B", "A"] ["B"] histW).2.2 "A"⟩

/-! Claim C5: leaderboard size, definedness, order and ranks. -/

/-- Example rows for the C5 witness: two with a defined month value, one
without. -/
def rwA : Row := ⟨"A", some 1, none, none, none, none, none, some 5, none⟩

def rwB : Row := ⟨"B", some 1, none, none, none, none, none, some 7, none⟩

def rwC : Row := ⟨"C", some 1, none, none, none, none, none, none, none⟩

/-- C5: the leaderboard never exceeds N entries, every entry has a defined
ranking-horizon value, entries are in descending order of that value, and
the template assigns 1-based ranks by position. -/
theorem leaderboard_correct :
    ∀ (h : String) (N : ℕ) (rows : List Row),
      (leaderboard h N rows).length ≤ N ∧
      (∀ r ∈ leaderboard h N rows, (rankVal h r).isSome = true) ∧
      List.Pairwise
        (fun a b => ∀ va vb, rankVal h a = some va → rankVal h b = some vb →
          vb ≤ va)
        (leaderboard h N rows) ∧
      (leaderboardRanked h N rows).map Prod.fst
        = List.range' 1 (leaderboard h N rows).length ∧
      (leaderboardRanked h N rows).map Prod.snd = leaderboard h N rows := by
  intro h N rows
  refine ⟨List.length_take_le _ _, ?_, ?_, List.enumFrom_map_fst _ _,
    List.enumFrom_map_snd _ _⟩
  · intro r hr
    have h1 : r ∈ List.insertionSort (rankLE h)
        (rows.filter (fun r => (rankVal h r).isSome)) :=
      List.mem_of_mem_take hr
    have h2 := (List.perm_insertionSort (rankLE h) _).mem_iff.mp h1
    exact (List.mem_filter.mp h2).2
  · have hs : List.Sorted (rankLE h) (List.insertionSort (rankLE h)
        (rows.filter (fun r => (rankVal h r).isSome))) :=
      List.sorted_insertionSort (rankLE h) _
    have hp : List.Pairwise (rankLE h) (leaderboard h N rows) :=
      List.Pairwise.sublist (List.take_sublist _ _) hs
    refine hp.imp ?_
    intro a b hle va vb hva hvb
    unfold rankLE at hle
    rw [hva, hvb] at hle
    simpa using hle

/-- Witness for C5 at a concrete row set: size bound and ranks, with the
membership and ordering conjuncts instantiated. -/
theorem leaderboard_correct_witness :
    (leaderboard "month" 2 [rwA, rwB, rwC]).length ≤ 2
    ∧ (leaderboardRanked "month" 2 [rwA, rwB, rwC]).map Prod.fst
        = List.range' 1 (leaderboard "month" 2 [rwA, rwB, rwC]).length
    ∧ (rwB ∈ leaderboard "month" 2 [rwA, rwB, rwC] →
        (rankVal "month" rwB).isSome = true) :=
  ⟨(leaderboard_correct "month" 2 [rwA, rwB, rwC]).1,
   (leaderboard_correct "month" 2 [rwA, rwB, rwC]).2.2.2.1,
   fun hm => (leaderboard_correct "month" 2 [rwA, rwB, rwC]).2.1 rwB hm⟩

/-! Claim C6: the watchlist projection is the input list, joined and
order-preserved. -/

/-- Strict watchlist order, used to identify the two constructions. -/
def mikeOrderLT (a b : Row) : Prop :=
  orderIdx MIKE_TICKERS a.Ticker < orderIdx MIKE_TICKERS b.Ticker

instance : IsAntisymm Row mikeOrderLT :=
  ⟨fun _ _ h1 h2 => (Nat.lt_asymm h1 h2).elim⟩

/-- Watchlist as the spec words it (refinement target for C6): the fixed
input symbol list with each symbol replaced by its computed row, symbols
with no computed row silently dropped, in the original input order. -/
def watchlistSpec (rows : List Row) : List Row :=
  MIKE_TICKERS.filterMap (fun t => rows.find? (fun r => r.Ticker == t))

/-- Helper: the order_map position of a symbol present in a list is a
valid index. -/
theorem orderIdx_inj : ∀ (l : List String) (t u : String),
    t ∈ l → u ∈ l → orderIdx l t = orderIdx l u → t = u := by
  intro l
  induction l with
  | nil => intro t u ht; cases ht
  | cons k ks ih =>
      intro t u ht hu he
      unfold orderIdx at he
      by_cases htk : t = k <;> by_cases huk : u = k
      · rw [htk, huk]
      · rw [if_pos htk, if_neg huk] at he
        cases he
      · rw [if_neg htk, if_pos huk] at he
        cases he
      · rw [if_neg htk, if_neg huk] at he
        have ht2 : t ∈ ks := by
          rcases List.mem_cons.mp ht with h | h
          · exact absurd h htk
          · exact h
        have hu2 : u ∈ ks := by
          rcases List.mem_cons.mp hu with h | h
          · exact absurd h huk
          · exact h
        exact ih t u ht2 hu2 (Nat.succ_injective he)

/-- Helper: the spec-side watchlist is strictly sorted by the order_map
position of its tickers, for any nodup key list. -/
theorem pairwise_lt_filterMap_find? :
    ∀ (keys : List String) (rows : List Row), keys.Nodup →
      List.Pairwise
        (fun a b => orderIdx keys a.Ticker < orderIdx keys b.Ticker)
        (keys.filterMap (fun t => rows.find? (fun r => r.Ticker == t))) := by
  intro keys
  induction keys with
  | nil => intro rows _; simp
  | cons k ks ih =>
      intro rows hnd
      obtain ⟨hk, hnds⟩ := List.nodup_cons.mp hnd
      have hmemt : ∀ r ∈ ks.filterMap
          (fun t => rows.find? (fun x => x.Ticker == t)), r.Ticker ∈ ks := by
        intro r hr
        obtain ⟨t, ht, hf⟩ := List.mem_filterMap.mp hr
        have hbt0 := List.find?_some hf
        have hbt : (r.Ticker == t) = true := hbt0
        rw [beq_iff_eq.mp hbt]
        exact ht
      have hidx : ∀ t, t ∈ ks → orderIdx (k :: ks) t = orderIdx ks t + 1 := by
        intro t ht
        have hne : ¬t = k := fun he => hk (he ▸ ht)
        show (if t = k then 0 else orderIdx ks t + 1) = orderIdx ks t + 1
        rw [if_neg hne]
      rw [List.filterMap_cons]
      cases hf : rows.find? (fun r => r.Ticker == k) with
      | none =>
          refine List.Pairwise.imp_of_mem ?_ (ih rows hnds)
          intro a b ha hb hlt
          rw [hidx _ (hmemt a ha), hidx _ (hmemt b hb)]
          omega
      | some r0 =>
          refine List.pairwise_cons.mpr ⟨?_, ?_⟩
          · intro b hb
            have h0 : orderIdx (k :: ks) r0.Ticker = 0 := by
              have hbt0 := List.find?_some hf
              have hbt : (r0.Ticker == k) = true := hbt0
              show (if r0.Ticker = k then 0 else orderIdx ks r0.Ticker + 1) = 0
              rw [if_pos (beq_iff_eq.mp hbt)]
            rw [h0, hidx _ (hmemt b hb)]
            omega
          · refine List.Pairwise.imp_of_mem ?_ (ih rows hnds)
            intro a b ha hb hlt
            rw [hidx _ (hmemt a ha), hidx _ (hmemt b hb)]
            omega

/-- Helper: the tickers of the spec-side watchlist are the key symbols
that resolve to a computed row, in key order. -/
theorem map_ticker_filterMap_find? :
    ∀ (keys : List String) (rows : List Row),
      (keys.filterMap (fun t => rows.find? (fun r => r.Ticker == t))).map
          Row.Ticker
        = keys.filter (fun t => rows.any (fun r => r.Ticker == t)) := by
  intro keys rows
  induction keys with
  | nil => rfl
  | cons k ks ih =>
      rw [List.filter_cons]
      cases hf : rows.find? (fun r => r.Ticker == k) with
      | none =>
          rw [@List.filterMap_cons_none String Row
            (fun t => rows.find? (fun r => r.Ticker == t)) k ks hf]
          have hnone : ¬(rows.any (fun r => r.Ticker == k) = true) := by
            rw [List.any_eq_true]
            rintro ⟨x, hx, hpx⟩
            exact (List.find?_eq_none.mp hf x hx) hpx
          rw [if_neg hnone]
          exact ih
      | some r0 =>
          rw [@List.filterMap_cons_some String Row
            (fun t => rows.find? (fun r => r.Ticker == t)) k ks r0 hf]
          have hbt0 := List.find?_some hf
          have hbt : (r0.Ticker == k) = true := hbt0
          have hany : rows.any (fun r => r.Ticker == k) = true :=
            List.any_eq_true.mpr
              ⟨r0, List.mem_of_find?_eq_some hf, hbt⟩
          rw [if_pos hany]
          simp only [List.map_cons]
          rw [beq_iff_eq.mp hbt, ih]

/-- C6: for computed rows with pairwise distinct tickers (as the build
produces), the watchlist table equals the input symbol list joined against
the rows — missing symbols dropped, input order preserved, never
reordered by any metric — and its ticker sequence is exactly the input
list filtered to the symbols that have a computed row. -/
theorem watchlist_correct :
    ∀ rows : List Row, (rows.map Row.Ticker).Nodup →
      mikeRows rows = watchlistSpec rows ∧
      (mikeRows rows).map Row.Ticker
        = MIKE_TICKERS.filter (fun t => rows.any (fun r => r.Ticker == t)) := by
  intro rows hnd
  have hperm1 : List.Perm (mikeRows rows)
      (rows.filter (fun r => decide (r.Ticker ∈ MIKE_TICKERS))) :=
    List.perm_insertionSort _ _
  have hrownd : rows.Nodup := List.Nodup.of_map Row.Ticker hnd
  have hFnd : (rows.filter (fun r => decide (r.Ticker ∈ MIKE_TICKERS))).Nodup :=
    List.Nodup.filter _ hrownd
  have hFmapnd : ((rows.filter (fun r => decide (r.Ticker ∈ MIKE_TICKERS))).map
      Row.Ticker).Nodup :=
    List.Sublist.nodup (List.Sublist.map _ (List.filter_sublist _)) hnd
  have hMnd : ((mikeRows rows).map Row.Ticker).Nodup :=
    (List.Perm.nodup_iff (List.Perm.map _ hperm1)).mpr hFmapnd
  have hPairNe : List.Pairwise (fun a b : Row => a.Ticker ≠ b.Ticker)
      (mikeRows rows) := List.pairwise_map.mp hMnd
  have hmemM : ∀ r ∈ mikeRows rows, r.Ticker ∈ MIKE_TICKERS := by
    intro r hr
    have h2 := (List.Perm.mem_iff hperm1).mp hr
    exact of_decide_eq_true (List.mem_filter.mp h2).2
  have hsortLE : List.Sorted mikeOrderLE (mikeRows rows) :=
    List.sorted_insertionSort _ _
  have hsortLT : List.Pairwise mikeOrderLT (mikeRows rows) := by
    refine List.Pairwise.imp_of_mem ?_ (List.Pairwise.and hsortLE hPairNe)
    intro a b ha hb hab
    obtain ⟨hle, hneq⟩ := hab
    refine lt_of_le_of_ne hle ?_
    intro he
    exact hneq (orderIdx_inj MIKE_TICKERS _ _ (hmemM a ha) (hmemM b hb) he)
  have hspecLT : List.Pairwise mikeOrderLT (watchlistSpec rows) :=
    pairwise_lt_filterMap_find? MIKE_TICKERS rows (by decide)
  have hspecNd : (watchlistSpec rows).Nodup := by
    refine List.Pairwise.imp ?_ hspecLT
    intro a b hlt he
    rw [he] at hlt
    exact lt_irrefl _ hlt
  have hmemS : ∀ r, r ∈ watchlistSpec rows
      ↔ (r ∈ rows ∧ r.Ticker ∈ MIKE_TICKERS) := by
    intro r
    constructor
    · intro hr
      obtain ⟨t, ht, hf⟩ := List.mem_filterMap.mp hr
      have hbt0 := List.find?_some hf
      have hbt : (r.Ticker == t) = true := hbt0
      have heq : r.Ticker = t := beq_iff_eq.mp hbt
      exact ⟨List.mem_of_find?_eq_some hf, heq ▸ ht⟩
    · rintro ⟨hr, hm⟩
      refine List.mem_filterMap.mpr ⟨r.Ticker, hm, ?_⟩
      cases hf : rows.find? (fun x => x.Ticker == r.Ticker) with
      | none =>
          exact absurd (beq_self_eq_true r.Ticker)
            (List.find?_eq_none.mp hf r hr)
      | some r2 =>
          have hbt0 := List.find?_some hf
          have hbt : (r2.Ticker == r.Ticker) = true := hbt0
          have h2 : r2.Ticker = r.Ticker := beq_iff_eq.mp hbt
          have hr2 : r2 ∈ rows := List.mem_of_find?_eq_some hf
          rw [List.inj_on_of_nodup_map hnd hr2 hr h2]
  have hmemF : ∀ r : Row,
      r ∈ rows.filter (fun r => decide (r.Ticker ∈ MIKE_TICKERS))
        ↔ (r ∈ rows ∧ r.Ticker ∈ MIKE_TICKERS) := by
    intro r
    rw [List.mem_filter]
    simp
  have hperm2 : List.Perm
      (rows.filter (fun r => decide (r.Ticker ∈ MIKE_TICKERS)))
      (watchlistSpec rows) :=
    (List.perm_ext_iff_of_nodup hFnd hspecNd).mpr
      (fun r => (hmemF r).trans (hmemS r).symm)
  have heq : mikeRows rows = watchlistSpec rows :=
    List.eq_of_perm_of_sorted (hperm1.trans hperm2) hsortLT hspecLT
  refine ⟨heq, ?_⟩
  rw [heq]
  exact map_ticker_filterMap_find? MIKE_TICKERS rows

/-- Rows for the C6 witness: two watchlist symbols (out of input order)
and one symbol outside the watchlist. -/
def rowAAPL : Row := ⟨"AAPL", some 2, none, none, none, none, none, some 9, none⟩

def rowXXX : Row := ⟨"XXX", some 3, none, none, none, none, none, some 1, none⟩

def rowVOO : Row := ⟨"VOO", some 1, none, none, none, none, none, some 3, none⟩

def rowsW : List Row := [rowAAPL, rowXXX, rowVOO]

/-- Witness for C6: the concrete watchlist keeps exactly VOO and AAPL, in
watchlist order, dropping the non-watchlist symbol. -/
theorem watchlist_correct_witness :
    (mikeRows rowsW).map Row.Ticker = ["VOO", "AAPL"] :=
  ((watchlist_correct rowsW (by decide)).2).trans (by decide)

end StockTrends
